import Mathlib

/-!
Verification development for the timeular-to-freshbooks synchronization tool.

This file gives a shallow embedding, in Lean 4, of the fuzzy matching,
entity resolution, record transformation and batch submission logic of the
repository (src/freshbooks/client.py, src/freshbooks/clients.py,
src/freshbooks/services.py, src/freshbooks/utils.py,
src/timeular/csv_handler.py), together with theorems settling the frozen
claims about that code.

Conventions of the embedding:
 * Python dictionaries holding time records are association lists
   `List (String × Value)` over a `Value` type covering the payload shapes
   the code manipulates.
 * Python floats are modelled as rationals `ℚ`; `float(...)` string
   conversion is modelled by an executable parser of the decimal literal
   grammar; `int(...)` truncation toward zero is `ratTrunc`.
 * Python sets of string tokens are `Finset String` (all set operations the
   code performs are order independent).
 * Python dict iteration order (insertion order, in-place overwrite) is
   modelled by association lists with an in-place `dictInsert`.
 * Exceptions are modelled with `Except String` / `Option`; a caught
   exception becomes `none` exactly where the source catches it.
-/

namespace T2F

attribute [local semireducible] Rat.add Rat.mul Rat.inv Rat.sub

/-! ### Generic string helpers (Python `in`, `startswith` on char lists) -/

/-- `listStartsWith hay needle` is true when `needle` is a prefix of `hay`
(character lists). Used to model Python substring tests. -/
def listStartsWith : List Char → List Char → Bool
  | _, [] => true
  | [], _ :: _ => false
  | a :: as, b :: bs => a = b && listStartsWith as bs

/-- `listHasSub hay needle`: `needle` occurs contiguously inside `hay`.
Models Python `needle in hay` on strings (empty needle is contained). -/
def listHasSub : List Char → List Char → Bool
  | hay, needle =>
    listStartsWith hay needle ||
      match hay with
      | [] => false
      | _ :: t => listHasSub t needle

/-- Python `needle in hay` for strings. -/
def strContains (hay needle : String) : Bool :=
  listHasSub hay.toList needle.toList

/-- Python `s.lower()` (ASCII case folding, which covers every string the
repository manipulates). -/
def strLower (s : String) : String :=
  String.mk (s.data.map Char.toLower)

/-- Python `s.strip()`: drop leading and trailing whitespace. -/
def strTrim (s : String) : String :=
  String.mk
    (((s.data.dropWhile Char.isWhitespace).reverse.dropWhile
      Char.isWhitespace).reverse)

/-- `s.replace('-',' ').replace('/',' ')` as used by every tokenizer. -/
def dashSlashToSpace (s : String) : String :=
  String.mk (s.data.map (fun c => if c = '-' ∨ c = '/' then ' ' else c))

/-- Python `s.replace(old, new)` for a single-character pattern. -/
def replaceChar (d : Char) (r : String) (s : String) : String :=
  String.mk (s.data.foldr (fun c acc => if c = d then r.data ++ acc else c :: acc) [])

/-- Helper of `splitWhitespace`: accumulate the current word (reversed). -/
def splitWSAux : List Char → List Char → List String
  | [], acc => if acc.isEmpty then [] else [String.mk acc.reverse]
  | c :: cs, acc =>
    if c.isWhitespace then
      if acc.isEmpty then splitWSAux cs []
      else String.mk acc.reverse :: splitWSAux cs []
    else splitWSAux cs (c :: acc)

/-- Python `s.split()` with no argument: split on whitespace runs, no empty
words. -/
def splitWhitespace (s : String) : List String :=
  splitWSAux s.data []

/-- Helper of `splitOnChar`. -/
def splitOnCharAux (d : Char) : List Char → List Char → List String
  | [], acc => [String.mk acc.reverse]
  | c :: cs, acc =>
    if c = d then String.mk acc.reverse :: splitOnCharAux d cs []
    else splitOnCharAux d cs (c :: acc)

/-- Python `s.split(d)` for a one-character separator (empty pieces are
kept, as in Python). -/
def splitOnChar (d : Char) (s : String) : List String :=
  splitOnCharAux d s.data []

/-- Python `s[:1]` / `s[0]` used for name initials. -/
def strTake1 (s : String) : String :=
  String.mk (s.data.take 1)

/-! ### Python `float()` on strings

Models the decimal literal grammar accepted by Python's `float` builtin
(optional sign, digits with an optional fractional part, optional exponent,
surrounding whitespace).  Strings outside this grammar — such as the
`HH:MM:SS` form `"01:30:00"` — raise `ValueError`, modelled as `none`. -/

/-- Consume leading decimal digits, returning their value, their count and
the rest of the input. -/
def takeDigits : List Char → Nat → Nat → Nat × Nat × List Char
  | [], acc, n => (acc, n, [])
  | c :: cs, acc, n =>
    if c.isDigit then takeDigits cs (acc * 10 + (c.toNat - '0'.toNat)) (n + 1)
    else (acc, n, c :: cs)

/-- Parse an optional `+`/`-` sign; returns the sign as `1` or `-1`. -/
def takeSign : List Char → Int × List Char
  | '+' :: cs => (1, cs)
  | '-' :: cs => (-1, cs)
  | cs => (1, cs)

/-- Parse the exponent part `e±ddd` (already past the `e`). -/
def parseExponent (cs : List Char) : Option Int :=
  let (sgn, cs₁) := takeSign cs
  let (v, n, cs₂) := takeDigits cs₁ 0 0
  if n = 0 ∨ cs₂ ≠ [] then none else some (sgn * (v : Int))

/-- Parse mantissa-and-exponent after the sign: `digits[.digits][e±digits]`.
Returns the rational value. -/
def parseMantissa (cs : List Char) : Option ℚ :=
  let (ip, ipLen, cs₁) := takeDigits cs 0 0
  let (fp, fpLen, cs₂) :=
    match cs₁ with
    | '.' :: rest => takeDigits rest 0 0
    | _ => (0, 0, cs₁)
  let hadDot := match cs₁ with | '.' :: _ => true | _ => false
  if ipLen = 0 ∧ fpLen = 0 then none
  else
    let base : ℚ := (ip : ℚ) + (fp : ℚ) / ((10 : ℚ) ^ fpLen)
    let rest := if hadDot then cs₂ else cs₁
    match rest with
    | [] => some base
    | 'e' :: ecs => (parseExponent ecs).map (fun e => base * (10 : ℚ) ^ e)
    | 'E' :: ecs => (parseExponent ecs).map (fun e => base * (10 : ℚ) ^ e)
    | _ => none

/-- Python `float(s)` on a string: `none` models a raised `ValueError`. -/
def pyFloat (s : String) : Option ℚ :=
  let t := strTrim s
  let (sgn, cs) := takeSign t.toList
  (parseMantissa cs).map (fun q => (sgn : ℚ) * q)

/-- Python `int(q)` for a float value: truncation toward zero. -/
def ratTrunc (q : ℚ) : Int := q.num / (q.den : Int)

/-! ### Values and time-record dictionaries -/

/-- A Python datetime, as far as the code observes it (naive fields;
`strftime` prints these directly). -/
structure PyDateTime where
  year : Nat
  month : Nat
  day : Nat
  hour : Nat
  minute : Nat
  second : Nat
  deriving DecidableEq

/-- Values a time-record dictionary can hold. -/
inductive Value where
  | vStr (s : String)
  | vNum (q : ℚ)
  | vBool (b : Bool)
  | vDate (d : PyDateTime)
  | vListStr (xs : List String)
  | vTags (tags : List (List (String × String)))
  | vNone
  deriving DecidableEq

/-- A time record: a Python dict, keys unique, insertion ordered. -/
abbrev Entry := List (String × Value)

/-- The success payload of an `Except`, for decidable statements. -/
def exOk {ε α : Type} : Except ε α → Option α
  | .ok a => some a
  | .error _ => none

/-- First binding of a key in a dict (Python `d[k]` / `d.get(k)`). -/
def lookupA {α : Type} (l : List (String × α)) (k : String) : Option α :=
  match l with
  | [] => none
  | (k', v) :: rest => if k' = k then some v else lookupA rest k

/-- Python truthiness of a `Value` (`if x:`). -/
def truthy : Value → Bool
  | .vStr s => s != ""
  | .vNum q => decide (q ≠ 0)
  | .vBool b => b
  | .vDate _ => true
  | .vListStr xs => !xs.isEmpty
  | .vTags t => !t.isEmpty
  | .vNone => false

/-- Python `float(x)` applied to a dictionary value, as in
`float(time_entry['duration'])` (src/freshbooks/client.py line 62).
Non-convertible values raise, modelled as `none`. -/
def pyFloatOfValue : Value → Option ℚ
  | .vNum q => some q
  | .vStr s => pyFloat s
  | .vBool b => some (if b then 1 else 0)
  | _ => none

/-! ### Billable flag parsing (src/timeular/csv_handler.py lines 40-48) -/

/-- The billable-flag transform of `load_time_entries_from_excel`:
booleans pass through, strings are compared lower-cased against the token
list `['yes', 'true', 'y', '1', 'billable']`, numbers go through `bool()`,
anything else leaves the default `False`. -/
def parseBillableCsv : Value → Bool
  | .vBool b => b
  | .vStr s => strLower s ∈ ["yes", "true", "y", "1", "billable"]
  | .vNum q => q ≠ 0
  | _ => false

/-! ### Shared fuzzy matching (src/freshbooks/utils.py, `_fuzzy_match`) -/

/-- The base stop-word list of `_fuzzy_match` (utils.py line 26). -/
def baseStopWords : List String :=
  ["and", "the", "of", "in", "for", "to", "with", "by", "at", "from"]

/-- Tokenisation used by `_fuzzy_match` (utils.py lines 22-32, 42-43):
lower-case, replace `-` and `/` by spaces, split on whitespace, keep tokens
that are not stop words and have length > 1.  The Python `set` is a
`Finset`. -/
def tokenizeFM (stop : List String) (s : String) : Finset String :=
  ((splitWhitespace (dashSlashToSpace (strLower s))).filter
    (fun t => t ∉ stop ∧ t.length > 1)).toFinset

/-- Per-candidate combined score of `_fuzzy_match` (utils.py lines 49-68),
assuming both token sets nonempty: 0.6 × overlap coefficient + 0.3 ×
substring score + 0.1 × containment score. -/
def fmCandidateScore (inputTokens : Finset String) (inputStr : String)
    (targetTokens : Finset String) (comparisonText : String) : ℚ :=
  let overlapScore : ℚ :=
    ((inputTokens ∩ targetTokens).card : ℚ) /
      (min inputTokens.card targetTokens.card : ℚ)
  let substringSum : ℚ :=
    inputTokens.sum (fun t => if strContains (strLower comparisonText) t then 1 / 2 else 0)
  let substringScore : ℚ := min 1 (substringSum / (inputTokens.card : ℚ))
  let containmentScore : ℚ :=
    if strContains (strLower comparisonText) (strLower inputStr) ∨
        strContains (strLower inputStr) (strLower comparisonText) then 8 / 10 else 0
  overlapScore * (6 / 10) + substringScore * (3 / 10) + containmentScore * (1 / 10)

/-- Loop body state of `_fuzzy_match`: best score so far and best match. -/
def fmStep {α : Type} (inputTokens : Finset String) (inputStr : String)
    (stop : List String) (f : α → String → String)
    (st : ℚ × Option α) (p : String × α) : ℚ × Option α :=
  let comparisonText := f p.2 p.1
  let targetTokens := tokenizeFM stop comparisonText
  if inputTokens = ∅ ∨ targetTokens = ∅ then st
  else
    let score := fmCandidateScore inputTokens inputStr targetTokens comparisonText
    if st.1 < score then (score, some p.2) else st

/-- `_fuzzy_match(input_str, target_items, f, min_threshold, custom_stop)`
(utils.py lines 8-82).  Candidates whose token set is empty are skipped
(`continue`), the best strictly-improving candidate is kept, and the best
match is returned only when its score reaches the threshold. -/
def fuzzyMatch {α : Type} (inputStr : String) (targetItems : List (String × α))
    (f : α → String → String) (minThreshold : ℚ) (customStop : List String) :
    Option α :=
  let stop := baseStopWords ++ customStop
  let inputTokens := tokenizeFM stop inputStr
  let res := targetItems.foldl (fmStep inputTokens inputStr stop f) (0, none)
  if res.1 ≥ minThreshold then res.2 else none

/-! ### Fuzzy-match report deduplication
(src/freshbooks/utils.py, `_deduplicate_fuzzy_matches`, lines 84-107) -/

/-- An entry of a fuzzy-match report: the deduplication key field (absent
fields read as `''` through `match.get(key_field, '')`) and the score. -/
structure FMatch where
  key : Option String
  score : ℚ
  deriving DecidableEq

/-- The grouping key: `match.get(key_field, '')`. -/
def FMatch.keyD (m : FMatch) : String := m.key.getD ""

/-- Python dict assignment semantics for the `grouped` dict: overwrite in
place when the key exists (keeping its position), else append. -/
def groupInsert (l : List (String × FMatch)) (k : String) (m : FMatch) :
    List (String × FMatch) :=
  match l with
  | [] => [(k, m)]
  | (k', m') :: rest =>
    if k' = k then
      (if m'.score < m.score then (k', m) else (k', m')) :: rest
    else (k', m') :: groupInsert rest k m

/-- One iteration of the grouping loop (utils.py lines 101-104): replace the
stored entry only when the new score is strictly greater. -/
def dedupStep (acc : List (String × FMatch)) (m : FMatch) :
    List (String × FMatch) :=
  groupInsert acc m.keyD m

/-- `_deduplicate_fuzzy_matches(matches, key_field)`: group by the key
field's value, keep the highest score on collision (first entry on ties),
and return `list(grouped.values())` in key-first-appearance order. -/
def dedupFuzzyMatches (ms : List FMatch) : List FMatch :=
  ((ms.foldl dedupStep []).map Prod.snd)

/-- Whether a report is sorted in descending score order. -/
def sortedByScoreDesc : List FMatch → Bool
  | [] => true
  | [_] => true
  | a :: b :: t => decide (b.score ≤ a.score) && sortedByScoreDesc (b :: t)

/-- The collision rule of the grouping loop: a stored entry is replaced
only by a strictly greater score. -/
def mergeSc : Option FMatch → FMatch → Option FMatch
  | none, m => some m
  | some a, m => if a.score < m.score then some m else some a

/-- Left fold of the collision rule over a list: the entry that survives a
deduplication group (first entry achieving the running maximum). -/
def pickFirstMax (l : List FMatch) : Option FMatch :=
  l.foldl mergeSc none

/-! ### Customers (src/freshbooks/client.py, `FreshbooksClient`) -/

/-- A Freshbooks client record, as far as the matching code reads it:
`client.get('fname','')`, `client.get('lname','')`,
`client.get('organization','')`, `client.get('id')`. -/
structure Client where
  fname : String
  lname : String
  organization : String
  id : Option Int
  deriving DecidableEq

/-- Python dict assignment: overwrite in place when the key exists, else
append (insertion order preserved, last write wins). -/
def dictInsert {α : Type} (l : List (String × α)) (k : String) (v : α) :
    List (String × α) :=
  match l with
  | [] => [(k, v)]
  | (k', v') :: rest =>
    if k' = k then (k', v) :: rest else (k', v') :: dictInsert rest k v

/-- The `by_name` lookup built by `get_clients` (client.py lines 229-247):
for each client insert the lower-cased full name, organization and
`"full name - organization"` combined form (the `by_id` table is not used
by the claims under study). -/
def buildClientByName (clients : List Client) : List (String × Client) :=
  clients.foldl
    (fun acc c =>
      let fullName := strTrim (c.fname ++ " " ++ c.lname)
      let organization := c.organization
      let acc := if fullName ≠ "" then dictInsert acc (strLower fullName) c else acc
      let acc := if organization ≠ "" then dictInsert acc (strLower organization) c else acc
      if fullName ≠ "" ∧ organization ≠ "" then
        dictInsert acc (strLower (fullName ++ " - " ++ organization)) c
      else acc)
    []

/-- Stop words of `partial_match_client` (client.py line 296). -/
def clientStopWords : List String :=
  ["and", "the", "llc", "inc", "ltd", "corp", "corporation", "company", "co"]

/-- Tokenisation of `partial_match_client` (client.py lines 293-297 and
304-305): replace `-` and `/` by spaces, split, drop stop words.  Note: no
lower-casing of the input and no length filter in this variant. -/
def tokenizeClient (s : String) : Finset String :=
  ((splitWhitespace (dashSlashToSpace s)).filter
    (fun t => t ∉ clientStopWords)).toFinset

/-- The lower-cased trimmed full name used by the substring sub-score
(client.py line 319). -/
def clientFullNameLower (c : Client) : String :=
  strTrim (strLower c.fname ++ " " ++ strLower c.lname)

/-- Per-candidate score of `partial_match_client` (client.py lines
302-350): overlap, substring hits against name/organization, the initials
bonus, the 0.6/0.3/0.1 weighting, and the flat `+0.2` containment boost
comparing the raw query `name` against the lower-cased index key.  `none`
models the `continue` when either token set is empty. -/
def clientCandidateScore (name key : String) (c : Client) : Option ℚ :=
  let inputTokens := tokenizeClient name
  let clientTokens := tokenizeClient (strLower key)
  if inputTokens = ∅ ∨ clientTokens = ∅ then none
  else
    let overlapScore : ℚ :=
      ((inputTokens ∩ clientTokens).card : ℚ) /
        (min inputTokens.card clientTokens.card : ℚ)
    let fullName := clientFullNameLower c
    let organization := strLower c.organization
    let substringSum : ℚ :=
      inputTokens.sum
        (fun t =>
          (if strContains fullName t then (1 : ℚ) / 2 else 0) +
            (if strContains organization t then (1 : ℚ) / 2 else 0))
    let substringScore : ℚ := min 1 (substringSum / (inputTokens.card : ℚ))
    let initialScore : ℚ :=
      if c.fname ≠ "" ∧ c.lname ≠ "" ∧
          (inputTokens.filter
            (fun t => t.length = 2 ∧
              strLower t = strLower (strTake1 c.fname ++ strTake1 c.lname))).Nonempty
      then 8 / 10 else 0
    let combined :=
      overlapScore * (6 / 10) + substringScore * (3 / 10) + initialScore * (1 / 10)
    let combined :=
      if strContains (strLower key) name ∨ strContains name (strLower key) then
        combined + 2 / 10
      else combined
    some combined

/-- Loop state update of `partial_match_client`: keep the strictly best
candidate (first encountered wins ties). -/
def clientScanStep (name : String) (st : ℚ × Option Client)
    (p : String × Client) : ℚ × Option Client :=
  match clientCandidateScore name p.1 p.2 with
  | none => st
  | some score => if st.1 < score then (score, some p.2) else st

/-- `partial_match_client(name)` (client.py lines 280-358): scan the
`by_name` dict, track the best score, and return the best match only when
its score reaches 0.4. -/
def fuzzyMatchClient (byName : List (String × Client)) (name : String) :
    Option Client :=
  let res := byName.foldl (clientScanStep name) (0, none)
  if res.1 ≥ 4 / 10 then res.2 else none

/-- `find_client_by_name(name)` (client.py lines 255-278): exact lookup of
`name.lower()` in `by_name`, else fall back to `partial_match_client`. -/
def findClientByName (byName : List (String × Client)) (name : String) :
    Option Client :=
  match lookupA byName (strLower name) with
  | some c => some c
  | none => fuzzyMatchClient byName name

/-- The branch that produced a resolution (`export_client_mappings`,
client.py lines 552-567, reports the exact branch with score 1.0). -/
inductive MatchKind where
  | exact
  | fuzzy
  deriving DecidableEq

/-- `find_client_by_name` with the branch that fired recorded, exactly as
`export_client_mappings` classifies it: the exact branch (score 1.0)
short-circuits, otherwise the fuzzy scan decides. -/
def resolveClient (byName : List (String × Client)) (name : String) :
    Option (MatchKind × Client) :=
  match lookupA byName (strLower name) with
  | some c => some (.exact, c)
  | none => (fuzzyMatchClient byName name).map (fun c => (.fuzzy, c))

/-! #### Fetching the client collection (error handling, C2) -/

/-- Outcome of `get_clients` (client.py lines 167-253): a successful fetch
materialises the lookup tables; an HTTP error status leaves the loop and
stores empty lookups; a raised exception is caught, logged and `None`
returned with `self.clients` never assigned. -/
inductive FetchOutcome where
  | ok (byName : List (String × Client))
  | httpFail
  | exn
  deriving DecidableEq

/-- The `self.clients["by_name"]` state after `get_clients` ran once:
`none` models the attribute never having been set (a later access raises
`AttributeError`). -/
def clientsAfterFetch : FetchOutcome → Option (List (String × Client))
  | .ok byName => some byName
  | .httpFail => some []
  | .exn => none

/-- `find_client_by_name` reached through the lazy `get_clients` load
(client.py lines 265-266): when the fetch raised, `self.clients` is unset
and the access raises `AttributeError`, modelled as `.error`. -/
def findClientByNameE (fetch : FetchOutcome) (name : String) :
    Except String (Option Client) :=
  match clientsAfterFetch fetch with
  | none => .error "AttributeError: 'FreshbooksClient' object has no attribute 'clients'"
  | some byName => .ok (findClientByName byName name)

/-- `get_client_id_from_name(name)` (client.py lines 16-29). -/
def getClientIdFromNameE (fetch : FetchOutcome) (name : String) :
    Except String (Option Int) :=
  (findClientByNameE fetch name).map (fun oc => oc.bind Client.id)

/-! ### Services (src/freshbooks/services.py, `ServicesMixin`) -/

/-- A Freshbooks service record as the matching code reads it. -/
structure Service where
  name : String
  id : Option Int
  billable : Bool
  deriving DecidableEq

/-- Service-specific stop words (services.py line 127). -/
def serviceStopWords : List String :=
  ["service", "services", "consulting", "time", "hours", "work"]

/-- Comparison text for a service candidate (services.py lines 122-124):
`f"{service.get('name', '')} {key}".strip()`. -/
def serviceComparisonText (s : Service) (key : String) : String :=
  strTrim (s.name ++ " " ++ key)

/-- `_partial_match_service(tag)` (services.py lines 111-134): the shared
`_fuzzy_match` with service stop words and threshold 0.35. -/
def fuzzyMatchService (byName : List (String × Service)) (tag : String) :
    Option Service :=
  fuzzyMatch tag byName serviceComparisonText (35 / 100) serviceStopWords

/-- `find_service_by_tag(tag)` (services.py lines 69-94): normalise the tag
with `lower().strip()`, exact lookup first, then the fuzzy scan (which
receives the normalised tag). -/
def findServiceByTag (byName : List (String × Service)) (tag : String) :
    Option Service :=
  let tagLower := strTrim (strLower tag)
  match lookupA byName tagLower with
  | some s => some s
  | none => fuzzyMatchService byName tagLower

/-- `find_service_by_tag` with the branch recorded (exact lookups are
reported with score 1.0 by `export_service_mappings`, services.py lines
430-438). -/
def resolveService (byName : List (String × Service)) (tag : String) :
    Option (MatchKind × Service) :=
  let tagLower := strTrim (strLower tag)
  match lookupA byName tagLower with
  | some s => some (.exact, s)
  | none => (fuzzyMatchService byName tagLower).map (fun s => (.fuzzy, s))

/-- `get_service_id_from_tag(tag)` (services.py lines 96-109). -/
def getServiceIdFromTag (byName : List (String × Service)) (tag : String) :
    Option Int :=
  (findServiceByTag byName tag).bind Service.id

/-- Splitting a string-valued tag field (services.py lines 375-383): the
comma wins when present, else the semicolon, else the whole trimmed string
is the single tag. -/
def splitTags (tags : String) : List String :=
  if strContains tags "," then (splitOnChar ',' tags).map strTrim
  else if strContains tags ";" then (splitOnChar ';' tags).map strTrim
  else [strTrim tags]

/-- The tag-matching loop shared by `extract_service_from_csv` (services.py
lines 391-398) and `extract_service_from_timeular_api` (lines 341-348):
return the first truthy service id, never looking at later tags. -/
def firstMatchedService (byName : List (String × Service)) :
    List String → Option Int
  | [] => none
  | t :: rest =>
    match getServiceIdFromTag byName t with
    | some i => if i ≠ 0 then some i else firstMatchedService byName rest
    | none => firstMatchedService byName rest

/-- The id a tag contributes in the extraction loop (`if service_id:`
treats a 0 id as no match). -/
def tagMatchedId (byName : List (String × Service)) (t : String) : Option Int :=
  match getServiceIdFromTag byName t with
  | some i => if i ≠ 0 then some i else none
  | none => none

/-- The field-probing order of `extract_service_from_csv` (services.py
line 362). -/
def tagFields : List String := ["tags", "tag", "servicetag", "service_tag", "service"]

/-- First truthy tag field of the record (services.py lines 364-372). -/
def serviceHintValue (entry : Entry) : Option Value :=
  tagFields.foldr
    (fun field acc =>
      match lookupA entry field with
      | some v => if truthy v then some v else acc
      | none => acc)
    none

/-- Tag list derived from a tag field value (services.py lines 374-389):
strings are delimiter-split, lists are taken as-is. -/
def valueTagList : Value → List String
  | .vStr s => splitTags s
  | .vListStr xs => xs
  | _ => []

/-- `extract_service_from_csv(time_entry)` (services.py lines 350-398). -/
def extractServiceFromCsv (byName : List (String × Service)) (entry : Entry) :
    Option Int :=
  match serviceHintValue entry with
  | none => none
  | some v => firstMatchedService byName (valueTagList v)

/-- Labels collected from a Timeular API `tags` array
(services.py lines 335-339): each tag object contributes its truthy
`label`. -/
def tagLabels (tags : List (List (String × String))) : List String :=
  tags.foldr
    (fun tag acc =>
      match lookupA tag "label" with
      | some l => if l ≠ "" then l :: acc else acc
      | none => acc)
    []

/-- `extract_service_from_timeular_api(time_entry)` (services.py lines
321-348). -/
def extractServiceFromTimeularApi (byName : List (String × Service))
    (entry : Entry) : Option Int :=
  match lookupA entry "tags" with
  | some (.vTags tags) =>
    if tags.isEmpty then none
    else firstMatchedService byName (tagLabels tags)
  | _ => none

/-! ### Datetime parsing and formatting used by `create_time_entry` -/

/-- Exactly `n` decimal digits. -/
def parseDigitsExact : Nat → Nat → List Char → Option (Nat × List Char)
  | 0, acc, cs => some (acc, cs)
  | n + 1, acc, c :: cs =>
    if c.isDigit then parseDigitsExact n (acc * 10 + (c.toNat - '0'.toNat)) cs
    else none
  | _ + 1, _, [] => none

/-- Expect one specific character. -/
def expectChar (c : Char) : List Char → Option (List Char)
  | x :: xs => if x = c then some xs else none
  | [] => none

/-- Optional timezone offset `±HH:MM` (value ignored: `strftime` prints
the naive fields); must consume the remaining input. -/
def parseOffset : List Char → Option Unit
  | [] => some ()
  | c :: cs =>
    if c = '+' ∨ c = '-' then do
      let (_, cs) ← parseDigitsExact 2 0 cs
      let cs ← expectChar ':' cs
      let (_, cs) ← parseDigitsExact 2 0 cs
      if cs = [] then some () else none
    else none

/-- `HH:MM:SS[.ffffff][±HH:MM]`. -/
def parseTimePart (cs : List Char) : Option (Nat × Nat × Nat) := do
  let (h, cs) ← parseDigitsExact 2 0 cs
  let cs ← expectChar ':' cs
  let (mi, cs) ← parseDigitsExact 2 0 cs
  let cs ← expectChar ':' cs
  let (s, cs) ← parseDigitsExact 2 0 cs
  let cs ←
    match cs with
    | '.' :: rest =>
      let frac := rest.takeWhile Char.isDigit
      if frac = [] then none else some (rest.dropWhile Char.isDigit)
    | _ => some cs
  let _ ← parseOffset cs
  some (h, mi, s)

/-- Models `datetime.fromisoformat` on the canonical forms the pipeline
feeds it: `YYYY-MM-DD`, optionally followed by `T` or a space and
`HH:MM:SS[.ffffff][±HH:MM]` (the caller has already replaced a trailing
`Z` by `+00:00`).  Out-of-range fields and other shapes raise
`ValueError`, modelled as `none`. -/
def pyFromIso (s : String) : Option PyDateTime := do
  let cs := s.toList
  let (y, cs) ← parseDigitsExact 4 0 cs
  let cs ← expectChar '-' cs
  let (mo, cs) ← parseDigitsExact 2 0 cs
  let cs ← expectChar '-' cs
  let (d, cs) ← parseDigitsExact 2 0 cs
  let (h, mi, sec) ←
    match cs with
    | [] => some (0, 0, 0)
    | 'T' :: rest => parseTimePart rest
    | ' ' :: rest => parseTimePart rest
    | _ => none
  if 1 ≤ mo ∧ mo ≤ 12 ∧ 1 ≤ d ∧ d ≤ 31 ∧ h < 24 ∧ mi < 60 ∧ sec < 60 then
    some ⟨y, mo, d, h, mi, sec⟩
  else none

/-- Zero-pad a number to the given width. -/
def padNum (width n : Nat) : String :=
  let s := toString n
  String.mk (List.replicate (width - s.length) '0') ++ s

/-- `start_date.strftime("%Y-%m-%dT%H:%M:%S.000Z")` (client.py line 59). -/
def strftimeFB (d : PyDateTime) : String :=
  padNum 4 d.year ++ "-" ++ padNum 2 d.month ++ "-" ++ padNum 2 d.day ++ "T" ++
    padNum 2 d.hour ++ ":" ++ padNum 2 d.minute ++ ":" ++ padNum 2 d.second ++
    ".000Z"

/-- Python `str(x)` on the value shapes the payload assembly actually
meets (strings, ints, booleans, `None`); other shapes do not occur in the
records under study and are given fixed placeholders. -/
def pyStr : Value → String
  | .vStr s => s
  | .vNum q => if q.den = 1 then toString q.num else "<float>"
  | .vBool b => if b then "True" else "False"
  | .vDate _ => "<datetime>"
  | .vListStr _ => "<list>"
  | .vTags _ => "<list>"
  | .vNone => "None"

/-! ### `create_time_entry` and the batch pipeline
(src/freshbooks/client.py lines 31-165) -/

/-- The Freshbooks submission payload (the `"time_entry"` object built at
client.py lines 66-110). -/
structure Payload where
  isLogged : Bool
  duration : Int
  note : Value
  startedAt : String
  billable : Bool
  clientId : Option String
  projectId : Option String
  serviceId : Option String
  identityId : Option String
  deriving DecidableEq

/-- The client-name selection of `create_time_entry` (client.py lines
76-81): a truthy `activityname` field wins, else a truthy `activity`
field. -/
def activityHint (entry : Entry) : Option Value :=
  match lookupA entry "activityname" with
  | some v =>
    if truthy v then some v
    else
      match lookupA entry "activity" with
      | some w => if truthy w then some w else none
      | none => none
  | none =>
    match lookupA entry "activity" with
    | some w => if truthy w then some w else none
    | none => none

/-- The client-reference step of `create_time_entry` (client.py lines
76-88): when an activity name is present, look the client up (which may
raise through the lazy fetch) and attach a truthy id as `client_id`. -/
def applyClientLookup (fetch : FetchOutcome) (entry : Entry) (p : Payload) :
    Except String Payload :=
  match activityHint entry with
  | none => .ok p
  | some v =>
    match v with
    | .vStr s =>
      match getClientIdFromNameE fetch s with
      | .error e => .error e
      | .ok (some i) =>
        if i ≠ 0 then .ok { p with clientId := some (toString i) } else .ok p
      | .ok none => .ok p
    | _ => .error "AttributeError: lower"

/-- client.py lines 91-92: an explicit `client_id` field overrides
(presence only, no truthiness check). -/
def applyExplicitClientId (entry : Entry) (p : Payload) : Payload :=
  match lookupA entry "client_id" with
  | some v => { p with clientId := some (pyStr v) }
  | none => p

/-- client.py lines 94-96: `folderid` becomes the project id. -/
def applyFolderId (entry : Entry) (p : Payload) : Payload :=
  match lookupA entry "folderid" with
  | some v => { p with projectId := some (pyStr v) }
  | none => p

/-- client.py lines 98-100: a truthy `service` field becomes the service
id. -/
def applyServiceId (entry : Entry) (p : Payload) : Payload :=
  match lookupA entry "service" with
  | some v => if truthy v then { p with serviceId := some (pyStr v) } else p
  | none => p

/-- The explicit-identifier steps of `create_time_entry` (client.py lines
89-100), in source order. -/
def applyExplicitIds (entry : Entry) (p : Payload) : Payload :=
  applyServiceId entry (applyFolderId entry (applyExplicitClientId entry p))

/-- The identity steps of `create_time_entry` (client.py lines 102-110):
a truthy fetched identity id wins, else the record's `identity_id`. -/
def applyIdentity (identity : Option Int) (entry : Entry) (p : Payload) :
    Payload :=
  match identity with
  | some i => { p with identityId := some (toString i) }
  | none =>
    match lookupA entry "identity_id" with
    | some v => { p with identityId := some (pyStr v) }
    | none => p

/-- The body of `create_time_entry`'s `try:` block up to the network call
(client.py lines 51-110): parse the start date, convert the duration from
hours to whole seconds, build the payload, resolve the client reference,
and copy the optional identifiers.  `.error` models a raised exception
(caught at lines 129-132, where it is only logged). -/
def buildTimeEntryPayload (fetch : FetchOutcome) (identity : Option Int)
    (entry : Entry) : Except String Payload := do
  let sdv ←
    match lookupA entry "startdate" with
    | some v => Except.ok v
    | none => Except.error "KeyError: 'startdate'"
  let startDate ←
    match sdv with
    | .vStr s =>
      match pyFromIso (replaceChar 'Z' "+00:00" s) with
      | some d => Except.ok d
      | none => Except.error "ValueError: invalid isoformat string"
    | .vDate d => Except.ok d
    | _ => Except.error "AttributeError: strftime"
  let startedAt := strftimeFB startDate
  let dv ←
    match lookupA entry "duration" with
    | some v => Except.ok v
    | none => Except.error "KeyError: 'duration'"
  let hours ←
    match pyFloatOfValue dv with
    | some q => Except.ok q
    | none => Except.error "ValueError: could not convert string to float"
  let seconds : Int := ratTrunc (hours * 3600)
  let base : Payload :=
    { isLogged := true
      duration := seconds
      note := (lookupA entry "note").getD (.vStr "")
      startedAt := startedAt
      billable := truthy ((lookupA entry "billable").getD (.vBool false))
      clientId := none, projectId := none, serviceId := none, identityId := none }
  let p ← applyClientLookup fetch entry base
  Except.ok (applyIdentity identity entry (applyExplicitIds entry p))

/-- A provider response (opaque to the pipeline). -/
abbrev Response := String

/-- `create_time_entry(time_entry)` (client.py lines 31-132): any exception
while transforming or submitting is caught and turned into `None`; an
unsuccessful submission (`submit` = `none`) also yields `None`. -/
def createTimeEntry (fetch : FetchOutcome) (identity : Option Int)
    (submit : Payload → Option Response) (entry : Entry) : Option Response :=
  match buildTimeEntryPayload fetch identity entry with
  | .error _ => none
  | .ok p => submit p

/-- The result dictionary of `create_time_entries_batch`
(client.py lines 157-165). -/
structure BatchResult where
  successful : List (Entry × Response)
  failed : List Entry
  total : Nat
  success : Nat
  failure : Nat
  deriving DecidableEq

/-- One iteration of the batch loop (client.py lines 147-155): a `None`
outcome appends the original record (and nothing else) to `failed`, a
response appends the record/response pair to `successful`. -/
def batchStep (fetch : FetchOutcome) (identity : Option Int)
    (submit : Payload → Option Response)
    (acc : List (Entry × Response) × List Entry) (e : Entry) :
    List (Entry × Response) × List Entry :=
  match createTimeEntry fetch identity submit e with
  | some r => (acc.1 ++ [(e, r)], acc.2)
  | none => (acc.1, acc.2 ++ [e])

/-- `create_time_entries_batch(time_entries)` (client.py lines 134-165):
every record is attempted in order via `batchStep`. -/
def createTimeEntriesBatch (fetch : FetchOutcome) (identity : Option Int)
    (submit : Payload → Option Response) (entries : List Entry) : BatchResult :=
  let run := entries.foldl (batchStep fetch identity submit) ([], [])
  { successful := run.1, failed := run.2, total := entries.length,
    success := run.1.length, failure := run.2.length }


/-! ## Concrete fixtures used by counterexamples and witnesses -/

/-- A customer record with distinct first/last name and no organization. -/
def cJohnDoe : Client := ⟨"John", "Doe", "", some 1⟩

/-- The `by_name` index built from that single customer. -/
def clientIdx : List (String × Client) := buildClientByName [cJohnDoe]

/-- A billing service. -/
def svcDev : Service := ⟨"Development", some 7, true⟩

/-- A service `by_name` index as `get_services` builds it. -/
def svcIdx : List (String × Service) := [("development", svcDev)]

/-- A submission collaborator that always succeeds. -/
def submitOk : Payload → Option Response := fun _ => some "created"

/-- A record whose duration is the decimal hour count 2.5. -/
def entryDur25 : Entry :=
  [("startdate", .vDate ⟨2024, 1, 2, 9, 0, 0⟩), ("duration", .vNum (5 / 2))]

/-- A record whose duration is the string `"01:30:00"`. -/
def entryDur0130 : Entry :=
  [("startdate", .vDate ⟨2024, 1, 2, 9, 0, 0⟩), ("duration", .vStr "01:30:00")]

/-- A record whose billable field is the string `"no"`. -/
def entryBillableNo : Entry :=
  [("startdate", .vDate ⟨2024, 1, 2, 9, 0, 0⟩), ("duration", .vNum 1),
    ("billable", .vStr "no")]

/-- The payload `create_time_entry` builds from `entryDur25`. -/
def payload25 : Payload :=
  { isLogged := true, duration := 9000, note := .vStr ""
    startedAt := "2024-01-02T09:00:00.000Z", billable := false
    clientId := none, projectId := none, serviceId := none, identityId := none }



/-- Batch scenario record 1 (well-formed). -/
def entryBatch1 : Entry :=
  [("startdate", .vDate ⟨2024, 1, 2, 9, 0, 0⟩), ("duration", .vNum 1),
    ("note", .vStr "first")]

/-- Batch scenario record 2: its duration field is non-numeric garbage. -/
def entryBatch2 : Entry :=
  [("startdate", .vDate ⟨2024, 1, 2, 10, 0, 0⟩), ("duration", .vStr "garbage"),
    ("note", .vStr "second")]

/-- Batch scenario record 3 (well-formed). -/
def entryBatch3 : Entry :=
  [("startdate", .vDate ⟨2024, 1, 3, 9, 0, 0⟩), ("duration", .vNum 2),
    ("note", .vStr "third")]

/-- A record carrying an activity name that needs client resolution. -/
def entryWithActivity : Entry :=
  [("startdate", .vDate ⟨2024, 1, 2, 9, 0, 0⟩), ("duration", .vNum 1),
    ("activity", .vStr "John Doe")]

/-! ## Sub-scores of the customer fuzzy formula, named for the C6 analysis -/

/-- The overlap coefficient sub-score. -/
def overlapScoreClient (inputTokens clientTokens : Finset String) : ℚ :=
  ((inputTokens ∩ clientTokens).card : ℚ) /
    (min inputTokens.card clientTokens.card : ℚ)

/-- The substring sub-score in closed form: half a point per token found in
the full name and per token found in the organization, normalized by the
token count and capped at 1. -/
def substringCountScore (inputTokens : Finset String)
    (fullName organization : String) : ℚ :=
  min 1
    ((((inputTokens.filter (fun t => strContains fullName t)).card : ℚ) / 2 +
        ((inputTokens.filter (fun t => strContains organization t)).card : ℚ) / 2) /
      (inputTokens.card : ℚ))

/-- The initials bonus: 0.8 when some 2-letter token equals the candidate's
first-name-initial + last-name-initial. -/
def initialsBonus (inputTokens : Finset String) (c : Client) : ℚ :=
  if c.fname ≠ "" ∧ c.lname ≠ "" ∧
      (inputTokens.filter
        (fun t => t.length = 2 ∧
          strLower t = strLower (strTake1 c.fname ++ strTake1 c.lname))).Nonempty
  then 8 / 10 else 0

/-- The candidate's full raw display text (name, then organization when
present) — the text the claim's containment condition speaks about. -/
def clientFullRawText (c : Client) : String :=
  strTrim (strTrim (c.fname ++ " " ++ c.lname) ++ " " ++ c.organization)

/-- Modelled from the claim (C6): the weighted sub-score sum with a flat
+0.2 added whenever the raw query string is a substring of the candidate's
full raw text or vice versa. -/
def claimC6Score (name key : String) (c : Client) : Option ℚ :=
  let inputTokens := tokenizeClient name
  let clientTokens := tokenizeClient (strLower key)
  if inputTokens = ∅ ∨ clientTokens = ∅ then none
  else some
    (overlapScoreClient inputTokens clientTokens * (6 / 10) +
      substringCountScore inputTokens (clientFullNameLower c)
        (strLower c.organization) * (3 / 10) +
      initialsBonus inputTokens c * (1 / 10) +
      (if strContains (clientFullRawText c) name ∨
          strContains name (clientFullRawText c) then 2 / 10 else 0))

/-- The customer score formula as the code actually computes it, in closed
form: the +0.2 boost condition compares the raw query against the
lower-cased index key, not against the candidate's raw text. -/
def amendedClientScore (name key : String) (c : Client) : Option ℚ :=
  let inputTokens := tokenizeClient name
  let clientTokens := tokenizeClient (strLower key)
  if inputTokens = ∅ ∨ clientTokens = ∅ then none
  else some
    (overlapScoreClient inputTokens clientTokens * (6 / 10) +
      substringCountScore inputTokens (clientFullNameLower c)
        (strLower c.organization) * (3 / 10) +
      initialsBonus inputTokens c * (1 / 10) +
      (if strContains (strLower key) name ∨ strContains name (strLower key)
        then 2 / 10 else 0))

/-! ## C1 — duration normalization -/

/-- The explicit-identifier steps never change the duration field. -/
theorem applyExplicitIds_duration (entry : Entry) (p : Payload) :
    (applyExplicitIds entry p).duration = p.duration := by
  unfold applyExplicitIds applyServiceId applyFolderId applyExplicitClientId
  repeat' split
  all_goals rfl

/-- The identity steps never change the duration field. -/
theorem applyIdentity_duration (identity : Option Int) (entry : Entry)
    (p : Payload) : (applyIdentity identity entry p).duration = p.duration := by
  unfold applyIdentity
  repeat' split
  all_goals rfl

/-- The client-reference step never changes the duration field. -/
theorem applyClientLookup_duration (fetch : FetchOutcome) (entry : Entry)
    (p q : Payload) (h : applyClientLookup fetch entry p = .ok q) :
    q.duration = p.duration := by
  unfold applyClientLookup at h
  split at h
  · cases h; rfl
  · split at h
    · split at h
      · cases h
      · split at h
        · cases h; rfl
        · cases h; rfl
      · cases h; rfl
    · cases h

/-- Every payload `create_time_entry` builds carries
`int(float(duration) * 3600)` in its duration field. -/
theorem payload_duration_eq (fetch : FetchOutcome) (identity : Option Int)
    (entry : Entry) (v : Value) (q : ℚ) (p : Payload)
    (hv : lookupA entry "duration" = some v)
    (hq : pyFloatOfValue v = some q)
    (hp : exOk (buildTimeEntryPayload fetch identity entry) = some p) :
    p.duration = ratTrunc (q * 3600) := by
  unfold buildTimeEntryPayload at hp
  simp only [bind, Except.bind] at hp
  repeat' split at hp
  all_goals simp_all [exOk]
  all_goals subst hp
  all_goals rw [applyIdentity_duration, applyExplicitIds_duration]
  all_goals rename_i hcl
  all_goals exact applyClientLookup_duration _ _ _ _ hcl

/-- C1, counterexample: the claim says the duration input `"01:30:00"`
transforms to 5400 seconds, parsed component-wise.  In the code
(client.py lines 61-63) the duration only goes through `float()`, which
raises `ValueError` on `"01:30:00"`: no payload is built at all, so the
record errors out instead of yielding 5400 seconds. -/
theorem C1_hhmmss_counterexample :
    pyFloat "01:30:00" = none ∧
    exOk (buildTimeEntryPayload (.ok []) none entryDur0130) = none ∧
    (exOk (buildTimeEntryPayload (.ok []) none entryDur0130)).map Payload.duration
      ≠ some 5400 :=
  ⟨by decide, by decide, by decide⟩

/-- C1, amended: the duration of every inbound record is normalized to
whole seconds as `int(float(duration) * 3600)`, accepting a raw decimal
hour count (so 2.5 hours yields 9000 seconds); an `HH:MM:SS` string such
as `"01:30:00"` is not supported — `float()` raises and the record
fails. -/
theorem C1_duration_normalization :
    (∀ fetch identity entry v q p,
      lookupA entry "duration" = some v →
      pyFloatOfValue v = some q →
      exOk (buildTimeEntryPayload fetch identity entry) = some p →
      p.duration = ratTrunc (q * 3600)) ∧
    (exOk (buildTimeEntryPayload (.ok []) none entryDur25)).map Payload.duration
      = some 9000 ∧
    exOk (buildTimeEntryPayload (.ok []) none entryDur0130) = none :=
  ⟨payload_duration_eq, by decide, by decide⟩

/-- C1, witness: the amended theorem applied to the concrete 2.5-hour
record, whose payload carries 9000 seconds. -/
theorem C1_duration_normalization_witness :
    payload25.duration = ratTrunc ((5 / 2 : ℚ) * 3600) :=
  C1_duration_normalization.1 (.ok []) none entryDur25 (.vNum (5 / 2)) (5 / 2)
    payload25 (by decide) (by decide) (by decide)

/-! ## C3 — billable flag -/

/-- C3, counterexample: the csv loader's truthy token list
(csv_handler.py line 46) also contains `'billable'`, so not every string
outside `{yes, true, 1, y}` maps to false. -/
theorem C3_billable_counterexample :
    parseBillableCsv (.vStr "billable") = true ∧
    strLower "billable" ∉ ["yes", "true", "1", "y"] :=
  ⟨by decide, by decide⟩

/-- C3, amended: the csv loader's billable transform passes booleans
through, maps a string to true exactly when its lower-casing is in
`{yes, true, y, 1, billable}`, and maps a number through `bool()`; the
claim's scenarios hold there.  The separate coercion in
`create_time_entry` (client.py line 72) instead applies Python truthiness,
so the string `"no"` becomes `True` in the submission payload. -/
theorem C3_billable_transform :
    (∀ b, parseBillableCsv (.vBool b) = b) ∧
    (∀ s, parseBillableCsv (.vStr s) = true ↔
      strLower s ∈ ["yes", "true", "y", "1", "billable"]) ∧
    (∀ q : ℚ, parseBillableCsv (.vNum q) = true ↔ q ≠ 0) ∧
    parseBillableCsv (.vStr "Y") = true ∧
    parseBillableCsv (.vStr "no") = false ∧
    parseBillableCsv (.vNum 0) = false ∧
    parseBillableCsv (.vNum 1) = true ∧
    (exOk (buildTimeEntryPayload (.ok []) none entryBillableNo)).map
      Payload.billable = some true := by
  refine ⟨fun b => rfl, fun s => ?_, fun q => ?_, by decide, by decide,
    by decide, by decide, by decide⟩
  · simp [parseBillableCsv]
  · simp [parseBillableCsv]

/-! ## C7 and C10 — fuzzy-match report deduplication -/

theorem lookupA_groupInsert (acc : List (String × FMatch)) (k : String)
    (m : FMatch) (q : String) :
    lookupA (groupInsert acc k m) q =
      if q = k then mergeSc (lookupA acc q) m else lookupA acc q := by
  induction acc with
  | nil =>
    by_cases hqk : q = k
    · subst hqk; simp [groupInsert, lookupA, mergeSc]
    · simp [groupInsert, lookupA, mergeSc, hqk, Ne.symm hqk]
  | cons hd tl ih =>
    obtain ⟨k₀, m₀⟩ := hd
    by_cases hk : k₀ = k
    · subst hk
      by_cases hsc : m₀.score < m.score <;> by_cases hqk : q = k₀
      · subst hqk; simp [groupInsert, lookupA, mergeSc, hsc]
      · simp [groupInsert, lookupA, mergeSc, hsc, hqk, Ne.symm hqk]
      · subst hqk; simp [groupInsert, lookupA, mergeSc, hsc]
      · simp [groupInsert, lookupA, mergeSc, hsc, hqk, Ne.symm hqk]
    · by_cases hqk : q = k₀
      · subst hqk
        simp [groupInsert, lookupA, mergeSc, hk, Ne.symm hk, ih]
      · simp [groupInsert, lookupA, mergeSc, hk, hqk, Ne.symm hqk, ih]

theorem lookupA_dedup_fold (ms : List FMatch) (acc : List (String × FMatch))
    (k : String) :
    lookupA (ms.foldl dedupStep acc) k =
      (ms.filter (fun m => m.keyD == k)).foldl mergeSc (lookupA acc k) := by
  induction ms generalizing acc with
  | nil => rfl
  | cons m ms ih =>
    simp only [List.foldl_cons, List.filter_cons]
    by_cases hk : m.keyD = k
    · have hb : (m.keyD == k) = true := by simp [hk]
      simp only [hb, if_true, ih, dedupStep, lookupA_groupInsert, hk,
        if_pos rfl, beq_self_eq_true, List.foldl_cons]
    · have hb : (m.keyD == k) = false := by simp [hk]
      simp only [hb, Bool.false_eq_true, if_false, ih, dedupStep,
        lookupA_groupInsert]
      rw [if_neg (Ne.symm hk)]


theorem groupInsert_inv (acc : List (String × FMatch)) (k : String) (m : FMatch)
    (hm : m.keyD = k) (h : ∀ p ∈ acc, FMatch.keyD p.2 = p.1) :
    ∀ p ∈ groupInsert acc k m, FMatch.keyD p.2 = p.1 := by
  induction acc with
  | nil =>
    intro p hp
    simp only [groupInsert, List.mem_singleton] at hp
    subst hp; exact hm
  | cons hd tl ih =>
    obtain ⟨k₀, m₀⟩ := hd
    intro p hp
    simp only [groupInsert] at hp
    by_cases hk : k₀ = k
    · rw [if_pos hk] at hp
      rcases List.mem_cons.1 hp with h1 | h2
      · subst h1
        by_cases hsc : m₀.score < m.score
        · simp only [if_pos hsc]
          rw [hk]
          exact hm
        · simp only [if_neg hsc]
          exact h (k₀, m₀) (List.mem_cons_self _ _)
      · exact h p (List.mem_cons_of_mem _ h2)
    · rw [if_neg hk] at hp
      rcases List.mem_cons.1 hp with h1 | h2
      · subst h1; exact h (k₀, m₀) (List.mem_cons_self _ _)
      · exact ih (fun r hr => h r (List.mem_cons_of_mem _ hr)) p h2

theorem groupInsert_keys (acc : List (String × FMatch)) (k : String) (m : FMatch) :
    (groupInsert acc k m).map Prod.fst =
      if k ∈ acc.map Prod.fst then acc.map Prod.fst else acc.map Prod.fst ++ [k] := by
  induction acc with
  | nil => simp [groupInsert]
  | cons hd tl ih =>
    obtain ⟨k₀, m₀⟩ := hd
    by_cases hk : k₀ = k
    · subst hk
      by_cases hsc : m₀.score < m.score <;>
        simp [groupInsert, hsc, List.mem_cons]
    · simp only [groupInsert, if_neg hk, List.map_cons, ih]
      by_cases hmem : k ∈ tl.map Prod.fst
      · simp [hmem, List.mem_cons, Ne.symm hk]
      · simp [hmem, List.mem_cons, Ne.symm hk, hk]

theorem groupInsert_nodup (acc : List (String × FMatch)) (k : String) (m : FMatch)
    (h : (acc.map Prod.fst).Nodup) : ((groupInsert acc k m).map Prod.fst).Nodup := by
  rw [groupInsert_keys]
  by_cases hmem : k ∈ acc.map Prod.fst
  · simpa [hmem] using h
  · simp only [hmem, if_false]
    simpa [List.nodup_append, hmem] using h

theorem dedup_fold_inv (ms : List FMatch) (acc : List (String × FMatch))
    (h : ∀ p ∈ acc, FMatch.keyD p.2 = p.1) :
    ∀ p ∈ ms.foldl dedupStep acc, FMatch.keyD p.2 = p.1 := by
  induction ms generalizing acc with
  | nil => exact h
  | cons m ms ih =>
    exact ih _ (groupInsert_inv _ _ _ rfl h)

theorem dedup_fold_nodup (ms : List FMatch) (acc : List (String × FMatch))
    (h : (acc.map Prod.fst).Nodup) :
    ((ms.foldl dedupStep acc).map Prod.fst).Nodup := by
  induction ms generalizing acc with
  | nil => exact h
  | cons m ms ih =>
    exact ih _ (groupInsert_nodup _ _ _ h)

theorem find_eq_lookupA (acc : List (String × FMatch)) (k : String)
    (hinv : ∀ p ∈ acc, FMatch.keyD p.2 = p.1) (hnd : (acc.map Prod.fst).Nodup) :
    (acc.map Prod.snd).find? (fun m => m.keyD == k) = lookupA acc k := by
  induction acc with
  | nil => rfl
  | cons hd tl ih =>
    obtain ⟨k₀, m₀⟩ := hd
    have hkey : m₀.keyD = k₀ := hinv (k₀, m₀) (List.mem_cons_self _ _)
    simp only [List.map_cons, List.find?_cons, lookupA]
    by_cases hk : k₀ = k
    · subst hk
      simp [hkey]
    · have : (m₀.keyD == k) = false := by simp [hkey, hk]
      simp only [this, if_neg hk]
      exact ih (fun r hr => hinv r (List.mem_cons_of_mem _ hr)) (List.Nodup.of_cons hnd)

theorem lookupA_mem_values (acc : List (String × FMatch)) (k : String) (m : FMatch)
    (h : lookupA acc k = some m) : m ∈ acc.map Prod.snd := by
  induction acc with
  | nil => cases h
  | cons hd tl ih =>
    obtain ⟨k₀, m₀⟩ := hd
    simp only [lookupA] at h
    by_cases hk : k₀ = k
    · rw [if_pos hk] at h
      cases h
      simp only [List.map_cons]
      exact List.mem_cons_self _ _
    · rw [if_neg hk] at h
      exact List.mem_cons_of_mem _ (ih h)

theorem foldl_mergeSc_some (l : List FMatch) (a : FMatch) :
    ∃ b, l.foldl mergeSc (some a) = some b ∧ a.score ≤ b.score := by
  induction l generalizing a with
  | nil => exact ⟨a, rfl, le_refl _⟩
  | cons m l ih =>
    simp only [List.foldl_cons, mergeSc]
    by_cases hsc : a.score < m.score
    · rw [if_pos hsc]
      obtain ⟨b, hb, hle⟩ := ih m
      exact ⟨b, hb, le_trans (le_of_lt hsc) hle⟩
    · rw [if_neg hsc]
      exact ih a

theorem foldl_mergeSc_mem_le (l : List FMatch) (a m : FMatch) (hm : m ∈ l) :
    ∃ b, l.foldl mergeSc (some a) = some b ∧ m.score ≤ b.score := by
  induction l generalizing a with
  | nil => cases hm
  | cons c l ih =>
    simp only [List.foldl_cons, mergeSc]
    rcases List.mem_cons.1 hm with h1 | h2
    · subst h1
      by_cases hsc : a.score < m.score
      · rw [if_pos hsc]
        exact foldl_mergeSc_some l m
      · rw [if_neg hsc]
        obtain ⟨b, hb, hle⟩ := foldl_mergeSc_some l a
        exact ⟨b, hb, le_trans (not_lt.1 hsc) hle⟩
    · by_cases hsc : a.score < c.score
      · rw [if_pos hsc]; exact ih c h2
      · rw [if_neg hsc]; exact ih a h2

theorem pickFirstMax_mem_le (l : List FMatch) (m : FMatch) (hm : m ∈ l) :
    ∃ b, pickFirstMax l = some b ∧ m.score ≤ b.score := by
  unfold pickFirstMax
  cases l with
  | nil => cases hm
  | cons c l =>
    simp only [List.foldl_cons, mergeSc]
    rcases List.mem_cons.1 hm with h1 | h2
    · subst h1; exact foldl_mergeSc_some l m
    · exact foldl_mergeSc_mem_le l c m h2

theorem foldl_mergeSc_mem_of_eq (l : List FMatch) (a b : FMatch)
    (h : l.foldl mergeSc (some a) = some b) : b = a ∨ b ∈ l := by
  induction l generalizing a with
  | nil => cases h; exact Or.inl rfl
  | cons c l ih =>
    simp only [List.foldl_cons, mergeSc] at h
    by_cases hsc : a.score < c.score
    · rw [if_pos hsc] at h
      rcases ih c h with h1 | h2
      · exact Or.inr (h1 ▸ List.mem_cons_self _ _)
      · exact Or.inr (List.mem_cons_of_mem _ h2)
    · rw [if_neg hsc] at h
      rcases ih a h with h1 | h2
      · exact Or.inl h1
      · exact Or.inr (List.mem_cons_of_mem _ h2)

theorem pickFirstMax_mem (l : List FMatch) (b : FMatch)
    (h : pickFirstMax l = some b) : b ∈ l := by
  unfold pickFirstMax at h
  cases l with
  | nil => cases h
  | cons c l =>
    simp only [List.foldl_cons, mergeSc] at h
    rcases foldl_mergeSc_mem_of_eq l c b h with h1 | h2
    · exact h1 ▸ List.mem_cons_self _ _
    · exact List.mem_cons_of_mem _ h2


theorem countP_values_le_one (acc : List (String × FMatch)) (k : String)
    (hinv : ∀ p ∈ acc, FMatch.keyD p.2 = p.1) (hnd : (acc.map Prod.fst).Nodup) :
    (acc.map Prod.snd).countP (fun m => m.keyD == k) ≤ 1 := by
  induction acc with
  | nil => simp
  | cons hd tl ih =>
    obtain ⟨k₀, m₀⟩ := hd
    have hkey : m₀.keyD = k₀ := hinv _ (List.mem_cons_self _ _)
    have hndtl : (tl.map Prod.fst).Nodup := List.Nodup.of_cons hnd
    have hinvtl : ∀ p ∈ tl, FMatch.keyD p.2 = p.1 :=
      fun r hr => hinv r (List.mem_cons_of_mem _ hr)
    simp only [List.map_cons, List.countP_cons]
    by_cases hk : k₀ = k
    · subst hk
      have hz : (tl.map Prod.snd).countP (fun m => m.keyD == k₀) = 0 := by
        rw [List.countP_eq_zero]
        intro m hm
        simp only [List.mem_map] at hm
        obtain ⟨p, hp, rfl⟩ := hm
        have hpk : FMatch.keyD p.2 = p.1 := hinvtl p hp
        have hne : p.1 ≠ k₀ := by
          intro heq
          have hmm : p.1 ∈ tl.map Prod.fst := List.mem_map_of_mem Prod.fst hp
          rw [heq] at hmm
          exact (List.nodup_cons.1 hnd).1 hmm
        simp [hpk, hne]
      simp [hz, hkey]
    · have hb : (m₀.keyD == k) = false := by simp [hkey, hk]
      simp only [hb]
      simpa using ih hinvtl hndtl

/-- C10: in fuzzy-match report deduplication the survivor of every
key-group is the first entry achieving the running maximum (an entry is
replaced only by a strictly greater score, so equal scores keep the first
encountered), and an entry missing the key field is grouped under the
empty-string key; at most one entry with the empty-string group key
survives. -/
theorem C10_dedup_tie_and_keyless :
    (∀ ms k, (dedupFuzzyMatches ms).find? (fun m => m.keyD == k) =
        pickFirstMax (ms.filter (fun m => m.keyD == k))) ∧
    (∀ ms, (dedupFuzzyMatches ms).countP (fun m => m.keyD == "") ≤ 1) ∧
    (∀ m : FMatch, m.key = none → m.keyD = "") := by
  refine ⟨fun ms k => ?_, fun ms => ?_, fun m h => ?_⟩
  · unfold dedupFuzzyMatches pickFirstMax
    rw [find_eq_lookupA _ _ (dedup_fold_inv ms [] (by simp))
      (dedup_fold_nodup ms [] (by simp))]
    rw [lookupA_dedup_fold]
    rfl
  · exact countP_values_le_one _ _ (dedup_fold_inv ms [] (by simp))
      (dedup_fold_nodup ms [] (by simp))
  · simp [FMatch.keyD, h]

/-- C7, amended: deduplicating the report keeps, for each query key, an
entry carrying at least the score of every entry with that key — so
deduplication never decreases the best recorded score.  The claim's
further sentence that the deduplicated report is sorted in descending
score order is false (see the counterexample): `_deduplicate_fuzzy_matches`
returns `grouped.values()` in key-first-appearance order and never
sorts. -/
theorem C7_dedup_keeps_best (ms : List FMatch) (m : FMatch) (h : m ∈ ms) :
    ∃ b, b ∈ dedupFuzzyMatches ms ∧ b.keyD = m.keyD ∧ m.score ≤ b.score := by
  have hf : m ∈ ms.filter (fun x => x.keyD == m.keyD) :=
    List.mem_filter.2 ⟨h, by simp⟩
  obtain ⟨b, hb, hle⟩ := pickFirstMax_mem_le _ m hf
  have hkey : b.keyD = m.keyD := by
    have hmem := pickFirstMax_mem _ b hb
    simpa using (List.mem_filter.1 hmem).2
  have hlk : lookupA (ms.foldl dedupStep []) m.keyD = some b := by
    rw [lookupA_dedup_fold]
    exact hb
  exact ⟨b, lookupA_mem_values _ _ _ hlk, hkey, hle⟩

/-- C7, counterexample: a two-entry report with distinct keys and
ascending scores deduplicates to itself, which is not sorted in descending
score order — refuting the claim's sorting clause. -/
theorem C7_dedup_not_sorted :
    dedupFuzzyMatches [⟨some "a", 1 / 2⟩, ⟨some "b", 9 / 10⟩] =
      [⟨some "a", 1 / 2⟩, ⟨some "b", 9 / 10⟩] ∧
    sortedByScoreDesc
      (dedupFuzzyMatches [⟨some "a", 1 / 2⟩, ⟨some "b", 9 / 10⟩]) = false :=
  ⟨by decide, by decide⟩

/-- C7, witness: the amended theorem applied to a concrete report with a
repeated key. -/
theorem C7_dedup_keeps_best_witness :
    ∃ b, b ∈ dedupFuzzyMatches [⟨some "a", 1 / 2⟩, ⟨some "a", 1 / 4⟩] ∧
      FMatch.keyD b = FMatch.keyD ⟨some "a", 1 / 4⟩ ∧
      FMatch.score ⟨some "a", 1 / 4⟩ ≤ b.score :=
  C7_dedup_keeps_best _ _ (by decide)

/-- C10, witness: the keyless-entry clause applied to a concrete entry
with no key field. -/
theorem C10_dedup_tie_and_keyless_witness : FMatch.keyD ⟨none, 1⟩ = "" :=
  C10_dedup_tie_and_keyless.2.2 ⟨none, 1⟩ rfl

/-! ## C9 — empty token sets are skipped, never scored -/

theorem foldl_fmStep_filter {α : Type} (inputTokens : Finset String)
    (inputStr : String) (stop : List String) (f : α → String → String)
    (items : List (String × α)) (st : ℚ × Option α) :
    items.foldl (fmStep inputTokens inputStr stop f) st =
      (items.filter (fun p => tokenizeFM stop (f p.2 p.1) ≠ ∅)).foldl
        (fmStep inputTokens inputStr stop f) st := by
  induction items generalizing st with
  | nil => rfl
  | cons p rest ih =>
    simp only [List.foldl_cons, List.filter_cons]
    by_cases ht : tokenizeFM stop (f p.2 p.1) = ∅
    · have hstep : fmStep inputTokens inputStr stop f st p = st := by
        unfold fmStep
        rw [if_pos (Or.inr ht)]
      have hcond : (decide (tokenizeFM stop (f p.2 p.1) ≠ ∅)) = false := by
        simp [ht]
      simp only [hcond, Bool.false_eq_true, if_false, hstep]
      exact ih st
    · have hcond : (decide (tokenizeFM stop (f p.2 p.1) ≠ ∅)) = true := by
        simp [ht]
      simp only [hcond, if_true, List.foldl_cons]
      exact ih _

theorem foldl_fmStep_empty_input {α : Type} (inputStr : String)
    (stop : List String) (f : α → String → String)
    (items : List (String × α)) (st : ℚ × Option α) :
    items.foldl (fmStep (∅ : Finset String) inputStr stop f) st = st := by
  induction items generalizing st with
  | nil => rfl
  | cons p rest ih =>
    simp only [List.foldl_cons]
    have hstep : fmStep ∅ inputStr stop f st p = st := by
      unfold fmStep
      rw [if_pos (Or.inl rfl)]
    rw [hstep]
    exact ih st

/-- C9: in `_fuzzy_match` a candidate whose normalized token set is empty
is skipped entirely — the scan over the index equals the scan over the
index with those candidates removed, so no zero score is recorded and the
per-candidate divisions are never reached for them — and a query whose own
token set is empty matches no candidate: the result is `none`. -/
theorem C9_fuzzy_empty_token_sets :
    (∀ (α : Type) (inputStr : String) (items : List (String × α))
      (f : α → String → String) (th : ℚ) (customStop : List String),
      fuzzyMatch inputStr items f th customStop =
        fuzzyMatch inputStr
          (items.filter
            (fun p => tokenizeFM (baseStopWords ++ customStop) (f p.2 p.1) ≠ ∅))
          f th customStop) ∧
    (∀ (α : Type) (inputStr : String) (items : List (String × α))
      (f : α → String → String) (th : ℚ) (customStop : List String),
      tokenizeFM (baseStopWords ++ customStop) inputStr = ∅ →
      fuzzyMatch inputStr items f th customStop = none) := by
  constructor
  · intro α inputStr items f th customStop
    unfold fuzzyMatch
    dsimp only
    rw [foldl_fmStep_filter]
  · intro α inputStr items f th customStop h
    unfold fuzzyMatch
    dsimp only
    rw [h, foldl_fmStep_empty_input]
    split <;> rfl

/-- C9, witness: the empty-query clause applied to the empty string
against a concrete service index at the service threshold. -/
theorem C9_fuzzy_empty_token_sets_witness :
    fuzzyMatch "" svcIdx serviceComparisonText (35 / 100) serviceStopWords = none :=
  C9_fuzzy_empty_token_sets.2 Service "" svcIdx serviceComparisonText (35 / 100) serviceStopWords
    (by decide)

/-! ## C8 — first matching tag determines the service -/

theorem firstMatchedService_cons (byName : List (String × Service))
    (t : String) (rest : List String) :
    firstMatchedService byName (t :: rest) =
      match tagMatchedId byName t with
      | some i => some i
      | none => firstMatchedService byName rest := by
  cases h : getServiceIdFromTag byName t with
  | none => simp [firstMatchedService, tagMatchedId, h]
  | some i =>
    by_cases hi : i = 0 <;> simp [firstMatchedService, tagMatchedId, h, hi]

theorem firstMatched_append (byName : List (String × Service))
    (pre : List String) (t : String) (rest : List String) (sid : Int)
    (hpre : ∀ t' ∈ pre, tagMatchedId byName t' = none)
    (ht : tagMatchedId byName t = some sid) :
    firstMatchedService byName (pre ++ t :: rest) = some sid := by
  induction pre with
  | nil =>
    rw [List.nil_append, firstMatchedService_cons, ht]
  | cons a pre ih =>
    rw [List.cons_append, firstMatchedService_cons,
      hpre a (List.mem_cons_self _ _)]
    exact ih (fun t' h => hpre t' (List.mem_cons_of_mem _ h))

/-- C8: a service hint that is a comma- or semicolon-delimited string or a
list of tags is resolved tag by tag, in order, against the service index;
the first tag yielding a truthy service id (exact or fuzzy, via
`find_service_by_tag`) determines the result, and the remaining tags are
never consulted — the result is independent of the tail after the first
match.  The same loop decides the Timeular API tags format. -/
theorem C8_first_matching_tag_wins :
    (∀ (byName : List (String × Service)) (pre : List String) (t : String)
      (rest : List String) (sid : Int),
      (∀ t' ∈ pre, tagMatchedId byName t' = none) →
      tagMatchedId byName t = some sid →
      firstMatchedService byName (pre ++ t :: rest) = some sid) ∧
    (∀ (byName : List (String × Service)) (entry : Entry) (s : String),
      serviceHintValue entry = some (.vStr s) →
      extractServiceFromCsv byName entry =
        firstMatchedService byName (splitTags s)) ∧
    (∀ (byName : List (String × Service)) (entry : Entry) (xs : List String),
      serviceHintValue entry = some (.vListStr xs) →
      extractServiceFromCsv byName entry = firstMatchedService byName xs) ∧
    (∀ (byName : List (String × Service)) (entry : Entry)
      (tags : List (List (String × String))),
      lookupA entry "tags" = some (.vTags tags) → tags ≠ [] →
      extractServiceFromTimeularApi byName entry =
        firstMatchedService byName (tagLabels tags)) := by
  refine ⟨firstMatched_append, fun byName entry s h => ?_,
    fun byName entry xs h => ?_, fun byName entry tags h hne => ?_⟩
  · unfold extractServiceFromCsv
    rw [h]
    rfl
  · unfold extractServiceFromCsv
    rw [h]
    rfl
  · unfold extractServiceFromTimeularApi
    rw [h]
    simp [hne]

/-- C8, witness: the delimited string `"foo, Development, bar"` against a
concrete index where only `Development` matches (exactly) resolves to that
service's id, ignoring `bar`. -/
theorem C8_first_matching_tag_wins_witness :
    extractServiceFromCsv svcIdx [("tags", .vStr "foo, Development, bar")]
      = some 7 := by
  rw [C8_first_matching_tag_wins.2.1 svcIdx _ "foo, Development, bar" (by decide)]
  have hsplit : splitTags "foo, Development, bar" = ["foo", "Development", "bar"] := by
    decide
  rw [hsplit]
  exact C8_first_matching_tag_wins.1 svcIdx ["foo"] "Development" ["bar"] 7 (by decide) (by decide)

/-! ## C5 — exact-match short-circuit -/

/-- C5, counterexample: for customers the exact-match lookup uses only
`name.lower()` with no whitespace trimming (client.py line 269), so the
query `" john doe "` — equal to the stored key `"john doe"` up to case and
leading/trailing whitespace — misses the exact branch and goes through the
fuzzy scan instead of returning an exact match with score 1.0. -/
theorem C5_whitespace_counterexample :
    strTrim (strLower " john doe ") = "john doe" ∧
    lookupA clientIdx "john doe" = some cJohnDoe ∧
    resolveClient clientIdx " john doe " = some (.fuzzy, cJohnDoe) ∧
    resolveClient clientIdx " john doe " ≠ some (.exact, cJohnDoe) :=
  ⟨by decide, by decide, by decide, by decide⟩

/-- C5, amended: a query whose lower-casing (customers: without trimming;
services: additionally trimmed, services.py line 83) equals a stored index
key short-circuits all fuzzy scoring and returns the stored record through
the exact branch, which the export reports with score 1.0. -/
theorem C5_exact_match_short_circuit :
    (∀ (byName : List (String × Client)) (name : String) (c : Client),
      lookupA byName (strLower name) = some c →
      resolveClient byName name = some (.exact, c)) ∧
    (∀ (byName : List (String × Service)) (tag : String) (s : Service),
      lookupA byName (strTrim (strLower tag)) = some s →
      resolveService byName tag = some (.exact, s)) := by
  constructor
  · intro byName name c h
    unfold resolveClient
    rw [h]
  · intro byName tag s h
    unfold resolveService
    dsimp only
    rw [h]

/-- C5, witness: an exactly-matching customer query and a service query
that differs from its key only by case and outer whitespace both resolve
through the exact branch. -/
theorem C5_exact_match_short_circuit_witness :
    resolveClient clientIdx "John Doe" = some (.exact, cJohnDoe) ∧
    resolveService svcIdx "  Development " = some (.exact, svcDev) :=
  ⟨C5_exact_match_short_circuit.1 clientIdx "John Doe" cJohnDoe (by decide),
   C5_exact_match_short_circuit.2 svcIdx "  Development " svcDev (by decide)⟩

/-! ## C6 — customer score formula and the containment boost -/

theorem sum_ite_half (s : Finset String) (p : String → Bool) :
    (s.sum fun t => if p t then (1 : ℚ) / 2 else 0) =
      ((s.filter (fun t => p t)).card : ℚ) / 2 := by
  rw [show (fun t => if p t then (1 : ℚ) / 2 else 0) =
      fun t => (if p t then (1 : ℚ) else 0) * (1 / 2) by
    funext t; by_cases h : p t <;> simp [h]]
  rw [← Finset.sum_mul, Finset.sum_boole]
  ring

/-- C6, amended: the per-candidate customer score of
`partial_match_client` equals 0.6 × overlap + 0.3 × substring + 0.1 ×
initials bonus, plus a flat +0.2 added exactly when the raw query string
contains or is contained in the lower-cased index key of the candidate
(client.py line 344) — not the candidate's full raw text as the claim
states.  The boost is added on top of the weighted sum, independently of
the 0.1-weighted bonus, so both can fire on one candidate. -/
theorem C6_client_score_formula (name key : String) (c : Client) :
    clientCandidateScore name key c = amendedClientScore name key c := by
  unfold clientCandidateScore amendedClientScore
  dsimp only
  by_cases h : tokenizeClient name = ∅ ∨ tokenizeClient (strLower key) = ∅
  · rw [if_pos h, if_pos h]
  · rw [if_neg h, if_neg h]
    by_cases hb : strContains (strLower key) name ∨ strContains name (strLower key)
    · simp only [if_pos hb]
      congr 1
      rw [Finset.sum_add_distrib, sum_ite_half, sum_ite_half]
      unfold overlapScoreClient substringCountScore initialsBonus
      ring
    · simp only [if_neg hb]
      congr 1
      rw [Finset.sum_add_distrib, sum_ite_half, sum_ite_half]
      unfold overlapScoreClient substringCountScore initialsBonus
      ring


/-- C6, counterexample: for the candidate John Doe (no organization) and
the raw query `"John Doe"`, the claim's condition holds — the raw query is
a substring of the candidate's full raw text — so the claim's formula
yields 0.2; but the code compares the raw query against the lower-cased
key `"john doe"`, the boost does not fire, and the code's score is 0. -/
theorem C6_raw_containment_counterexample :
    strContains (clientFullRawText cJohnDoe) "John Doe" = true ∧
    clientCandidateScore "John Doe" "john doe" cJohnDoe = some 0 ∧
    claimC6Score "John Doe" "john doe" cJohnDoe = some (2 / 10) ∧
    claimC6Score "John Doe" "john doe" cJohnDoe ≠
      clientCandidateScore "John Doe" "john doe" cJohnDoe :=
  ⟨by decide, by decide, by decide, by decide⟩

/-! ## C2 and C4 — batch failure semantics -/

theorem batch_fold_spec (fetch : FetchOutcome) (identity : Option Int)
    (submit : Payload → Option Response) (entries : List Entry)
    (accS : List (Entry × Response)) (accF : List Entry) :
    entries.foldl (batchStep fetch identity submit) (accS, accF) =
      (accS ++ entries.filterMap
          (fun e => (createTimeEntry fetch identity submit e).map (fun r => (e, r))),
        accF ++ entries.filter
          (fun e => (createTimeEntry fetch identity submit e).isNone)) := by
  induction entries generalizing accS accF with
  | nil => simp
  | cons e es ih =>
    simp only [List.foldl_cons, List.filterMap_cons, List.filter_cons]
    cases h : createTimeEntry fetch identity submit e with
    | some r =>
      simp only [batchStep, h, Option.map_some, Option.isNone_some,
        Bool.false_eq_true, if_false]
      rw [ih]
      simp
    | none =>
      simp only [batchStep, h, Option.map_none, Option.isNone_none, if_true]
      rw [ih]
      simp

theorem filter_some_none_length (fetch : FetchOutcome) (identity : Option Int)
    (submit : Payload → Option Response) (entries : List Entry) :
    (entries.filterMap
        (fun e => (createTimeEntry fetch identity submit e).map (fun r => (e, r)))).length +
      (entries.filter
        (fun e => (createTimeEntry fetch identity submit e).isNone)).length =
      entries.length := by
  induction entries with
  | nil => rfl
  | cons e es ih =>
    cases h : createTimeEntry fetch identity submit e with
    | some r =>
      simp only [List.filterMap_cons, List.filter_cons, h]
      simp only [Option.map_some', Option.isNone_some, Bool.false_eq_true,
        if_false, List.length_cons]
      omega
    | none =>
      simp only [List.filterMap_cons, List.filter_cons, h]
      simp only [Option.map_none', Option.isNone_none, if_true,
        List.length_cons]
      omega

/-- C4, amended: an exception while transforming or submitting one record
turns only that record into a `None` outcome; the batch never aborts — the
failed partition is exactly the records whose `create_time_entry` returned
`None` (appended as the bare original record, with no reason attached; the
reason is only logged), the successful partition pairs the others with
their responses, and the stats add up.  The 3-record scenario with a
non-numeric duration on record 2 yields stats {total: 3, success: 2,
failure: 1} with the failed list containing exactly record 2. -/
theorem C4_batch_partial_failure :
    (∀ (fetch : FetchOutcome) (identity : Option Int)
      (submit : Payload → Option Response) (entries : List Entry),
      (createTimeEntriesBatch fetch identity submit entries).failed =
        entries.filter
          (fun e => (createTimeEntry fetch identity submit e).isNone) ∧
      (createTimeEntriesBatch fetch identity submit entries).successful =
        entries.filterMap
          (fun e => (createTimeEntry fetch identity submit e).map (fun r => (e, r))) ∧
      (createTimeEntriesBatch fetch identity submit entries).total = entries.length ∧
      (createTimeEntriesBatch fetch identity submit entries).success +
        (createTimeEntriesBatch fetch identity submit entries).failure =
        entries.length) ∧
    createTimeEntriesBatch (.ok []) none submitOk
        [entryBatch1, entryBatch2, entryBatch3] =
      { successful := [(entryBatch1, "created"), (entryBatch3, "created")],
        failed := [entryBatch2], total := 3, success := 2, failure := 1 } := by
  constructor
  · intro fetch identity submit entries
    unfold createTimeEntriesBatch
    rw [batch_fold_spec]
    simp only [List.nil_append]
    exact ⟨trivial, trivial, trivial,
      filter_some_none_length fetch identity submit entries⟩
  · decide


theorem applyClientLookup_exn (entry : Entry) (p : Payload)
    (h : activityHint entry ≠ none) :
    ∀ q, applyClientLookup .exn entry p ≠ .ok q := by
  intro q hq
  unfold applyClientLookup at hq
  split at hq
  · exact h (by assumption)
  · split at hq
    · rename_i s
      simp only [getClientIdFromNameE, findClientByNameE, clientsAfterFetch,
        Except.map] at hq
      cases hq
    · cases hq

theorem createTimeEntry_exn_activity (identity : Option Int)
    (submit : Payload → Option Response) (entry : Entry)
    (h : activityHint entry ≠ none) :
    createTimeEntry .exn identity submit entry = none := by
  unfold createTimeEntry
  cases hb : buildTimeEntryPayload .exn identity entry with
  | error e => rfl
  | ok p =>
    exfalso
    unfold buildTimeEntryPayload at hb
    simp only [bind, Except.bind] at hb
    repeat' split at hb
    any_goals cases hb
    all_goals
      rename_i hcl
      exact applyClientLookup_exn entry _ h _ hcl

/-- C2, amended: a FetchError is not fatal to the pipeline run.
`get_clients` catches its own exception and leaves `self.clients` unset;
the resulting `AttributeError` on the next lookup is swallowed by
`create_time_entry`'s per-record handler, so the batch still processes
every record and returns normal stats: each record that needs a client
lookup (truthy activity name) individually fails, while the others proceed
to submission. -/
theorem C2_fetch_failure_not_fatal :
    (∀ (identity : Option Int) (submit : Payload → Option Response)
      (entries : List Entry),
      (createTimeEntriesBatch .exn identity submit entries).total =
        entries.length ∧
      (createTimeEntriesBatch .exn identity submit entries).success +
        (createTimeEntriesBatch .exn identity submit entries).failure =
        entries.length) ∧
    (∀ (identity : Option Int) (submit : Payload → Option Response)
      (entry : Entry), activityHint entry ≠ none →
      createTimeEntry .exn identity submit entry = none) ∧
    (∀ (identity : Option Int) (submit : Payload → Option Response)
      (entries : List Entry) (entry : Entry),
      entry ∈ entries → activityHint entry ≠ none →
      entry ∈ (createTimeEntriesBatch .exn identity submit entries).failed) := by
  refine ⟨fun identity submit entries => ?_, createTimeEntry_exn_activity,
    fun identity submit entries entry hmem hact => ?_⟩
  · constructor
    · rfl
    · unfold createTimeEntriesBatch
      rw [batch_fold_spec]
      simp only [List.nil_append]
      exact filter_some_none_length .exn identity submit entries
  · unfold createTimeEntriesBatch
    rw [batch_fold_spec]
    simp only [List.nil_append]
    refine List.mem_filter.2 ⟨hmem, ?_⟩
    rw [createTimeEntry_exn_activity identity submit entry hact]
    rfl

/-- C2, counterexample: with the client fetch raising, a 2-record batch
still runs to completion — the record without an activity name is
submitted successfully — and with the fetch failing on HTTP status (which
stores empty lookups), even a record with an activity name is submitted.
The failure is neither surfaced before records are processed nor does it
prevent submission. -/
theorem C2_fetch_failure_counterexample :
    createTimeEntriesBatch .exn none submitOk [entryWithActivity, entryBatch1] =
      { successful := [(entryBatch1, "created")], failed := [entryWithActivity],
        total := 2, success := 1, failure := 1 } ∧
    (createTimeEntriesBatch .httpFail none submitOk [entryWithActivity]).success
      = 1 :=
  ⟨by decide, by decide⟩

/-- C2, witness: the per-record clause applied to a concrete record with
an activity name under a failed fetch. -/
theorem C2_fetch_failure_not_fatal_witness :
    createTimeEntry .exn none submitOk entryWithActivity = none :=
  C2_fetch_failure_not_fatal.2.1 none submitOk entryWithActivity (by decide)


/-- C4, counterexample: the failed list of the 3-record scenario contains
record 2 exactly as it arrived — the stored record is byte-identical to
the input and carries no reason or error field, refuting the claim's
"with an attached reason". -/
theorem C4_no_reason_attached :
    (createTimeEntriesBatch (.ok []) none submitOk
        [entryBatch1, entryBatch2, entryBatch3]).failed = [entryBatch2] ∧
    entryBatch2 =
      [("startdate", .vDate ⟨2024, 1, 2, 10, 0, 0⟩),
        ("duration", .vStr "garbage"), ("note", .vStr "second")] ∧
    lookupA entryBatch2 "reason" = none ∧
    lookupA entryBatch2 "error" = none :=
  ⟨by decide, rfl, by decide, by decide⟩

end T2F
